import Mathlib

/-!
Shallow embedding of the `bkd` spatial-index core (Rust sources
`src/spatial.rs`, `src/storage.rs`, `src/search.rs`).

Coordinates are modelled as rationals: every finite `f64` is exactly a
rational number, the source only ever compares coordinates (`<`, `<=`,
`>=`) and never performs arithmetic on them inside the core algorithms,
and the usual order on `f64` restricted to non-NaN values agrees with the
rational order.  A dimension index out of range makes the source abort;
this is modelled by `Option`-valued accessors returning `none`.  The
recursive tree algorithms of `search.rs` recurse through arena links, so
the embedding threads an explicit fuel argument; `none` from fuel
exhaustion models non-termination, and the theorems below show the fuel
used by the library entry points is always sufficient for trees built
through the public interface.
-/

namespace Bkd

/-- Coordinate scalar: exact model of finite `f64` values. -/
abbrev Coord := ℚ

/-- 4-dimensional bounding box `(xmin, ymin, xmax, ymax)` from `spatial.rs`. -/
structure BoundingBox where
  xmin : Coord
  ymin : Coord
  xmax : Coord
  ymax : Coord
deriving DecidableEq, Repr

/-- Number of dimensions of a bounding box (`Point::dimensions`): always 4. -/
def BoundingBox.dimensions (_ : BoundingBox) : Nat := 4

/-- Per-dimension accessor (`Point::get_dimension` for `BoundingBox`):
`0 ↦ xmin`, `1 ↦ ymin`, `2 ↦ xmax`, `3 ↦ ymax`; any other index aborts in
the source (modelled as `none`). -/
def BoundingBox.get_dimension (b : BoundingBox) (dim : Nat) : Option Coord :=
  match dim with
  | 0 => some b.xmin
  | 1 => some b.ymin
  | 2 => some b.xmax
  | 3 => some b.ymax
  | _ => none

/-- Containment test (`SpatialPoint::is_within` for `BoundingBox`). -/
def BoundingBox.is_within (self query : BoundingBox) : Bool :=
  decide (self.xmin ≥ query.xmin) && decide (self.xmax ≤ query.xmax)
    && decide (self.ymin ≥ query.ymin) && decide (self.ymax ≤ query.ymax)

/-- Overlap test (`SpatialPoint::overlaps` for `BoundingBox`). -/
def BoundingBox.overlaps (self query : BoundingBox) : Bool :=
  !(decide (self.xmax < query.xmin) || decide (self.xmin > query.xmax)
    || decide (self.ymax < query.ymin) || decide (self.ymin > query.ymax))

/-- KD-tree node from `storage.rs`: spatial point, payload, optional
child indices into the arena. -/
structure Node (T : Type) where
  point : BoundingBox
  data : T
  left : Option Nat
  right : Option Nat
deriving DecidableEq, Repr

/-- Arena (`NodeArena` of `storage.rs`): an append-only vector of nodes,
addressed by index.  The `InMemoryLinker` of the source forwards every
linker operation to the arena with `NodeRef = usize`, so the linker layer
is modelled directly as operations on the arena. -/
abbrev NodeArena (T : Type) := List (Node T)

/-- Allocation (`NodeArena::allocate`): append a childless node, return
the new arena and the node's index. -/
def NodeArena.allocate (a : NodeArena T) (point : BoundingBox) (data : T) :
    NodeArena T × Nat :=
  (a ++ [⟨point, data, none, none⟩], a.length)

/-- Number of allocated nodes (`NodeArena::len`). -/
def NodeArena.len (a : NodeArena T) : Nat := a.length

/-- Linker write `link_left`: set the parent's left child (the source
aborts on an invalid parent reference; all verified call sites use valid
references, where the no-op fallback is unreachable). -/
def link_left (a : NodeArena T) (parent child : Nat) : NodeArena T :=
  match a[parent]? with
  | some nd => a.set parent { nd with left := some child }
  | none => a

/-- Linker write `link_right`: set the parent's right child. -/
def link_right (a : NodeArena T) (parent child : Nat) : NodeArena T :=
  match a[parent]? with
  | some nd => a.set parent { nd with right := some child }
  | none => a

/-- KD-tree insertion (`insert_node` of `search.rs`), with explicit fuel
for the recursion through arena links.  Returns the updated arena and the
returned root reference; `none` models fuel exhaustion or an invalid
reference / dimension abort. -/
def insert_node (fuel : Nat) (a : NodeArena T) (root : Option Nat)
    (new_node : Nat) (depth : Nat) : Option (NodeArena T × Nat) :=
  match fuel with
  | 0 => none
  | fuel + 1 =>
    match root with
    | none => some (a, new_node)
    | some current_root =>
      match a[current_root]?, a[new_node]? with
      | some currentNd, some newNd =>
        let dimension := depth % newNd.point.dimensions
        match newNd.point.get_dimension dimension,
            currentNd.point.get_dimension dimension with
        | some new_coord, some current_coord =>
          if new_coord < current_coord then
            match currentNd.left with
            | some left_child =>
              match insert_node fuel a (some left_child) new_node (depth + 1) with
              | some (a', _) => some (a', current_root)
              | none => none
            | none => some (link_left a current_root new_node, current_root)
          else
            match currentNd.right with
            | some right_child =>
              match insert_node fuel a (some right_child) new_node (depth + 1) with
              | some (a', _) => some (a', current_root)
              | none => none
            | none => some (link_right a current_root new_node, current_root)
        | _, _ => none
      | _, _ => none

/-- Recursive range search (`spatial_search_recursive` of `search.rs`):
pre-order collection with dimensional pruning.  Returns the list of
collected node references in traversal order. -/
def spatial_search_recursive (fuel : Nat) (a : NodeArena T) (node : Nat)
    (query : BoundingBox) (depth : Nat) : Option (List Nat) :=
  match fuel with
  | 0 => none
  | fuel + 1 =>
    match a[node]? with
    | none => none
    | some nd =>
      let node_point := nd.point
      let selfPart :=
        if node_point.is_within query || node_point.overlaps query then [node] else []
      let dimension := depth % query.dimensions
      match node_point.get_dimension dimension, query.get_dimension dimension with
      | some split_value, some query_min =>
        let queryMaxOpt : Option Coord :=
          if dimension < 2 then query.get_dimension (dimension + 2) else some query_min
        match queryMaxOpt with
        | none => none
        | some query_max =>
          let leftRes : Option (List Nat) :=
            match nd.left with
            | some left_child =>
              if query_min ≤ split_value then
                spatial_search_recursive fuel a left_child query (depth + 1)
              else some []
            | none => some []
          match leftRes with
          | none => none
          | some leftList =>
            let rightRes : Option (List Nat) :=
              match nd.right with
              | some right_child =>
                if query_max ≥ split_value then
                  spatial_search_recursive fuel a right_child query (depth + 1)
                else some []
              | none => some []
            match rightRes with
            | none => none
            | some rightList => some (selfPart ++ leftList ++ rightList)
      | _, _ => none

/-- Range search entry point (`spatial_search` of `search.rs`): empty
result on an empty tree, otherwise the recursive search from the root. -/
def spatial_search (fuel : Nat) (a : NodeArena T) (root : Option Nat)
    (query : BoundingBox) (depth : Nat) : Option (List Nat) :=
  match root with
  | none => some []
  | some current_node => spatial_search_recursive fuel a current_node query depth

/-- Tree construction discipline of the library's callers (`main.rs`,
`lib.rs` examples): start from an empty arena and a `none` root, and for
each item allocate a fresh node then insert it at depth 0, threading the
returned root.  Each insertion gets fuel equal to the arena size, which
the theorems show is always sufficient. -/
def buildStep (st : Option (NodeArena T × Option Nat)) (item : BoundingBox × T) :
    Option (NodeArena T × Option Nat) :=
  match st with
  | none => none
  | some (a, root) =>
    let alloc := a.allocate item.1 item.2
    match insert_node alloc.1.len alloc.1 root alloc.2 0 with
    | some (a', newRoot) => some (a', some newRoot)
    | none => none

/-- Build a tree from a list of (region, payload) pairs. -/
def buildTree (l : List (BoundingBox × T)) : Option (NodeArena T × Option Nat) :=
  l.foldl buildStep (some ([], none))

/-- Single step of the spec's re-walk: at `cur`, compare the target
node's region against `cur`'s region along `depth mod 4` (strictly less
goes left, otherwise right) and return the child reference stepped to,
if any. -/
def walkStep (a : NodeArena T) (cur target depth : Nat) : Option Nat :=
  match a[cur]?, a[target]? with
  | some curNd, some tgtNd =>
    match tgtNd.point.get_dimension (depth % 4),
        curNd.point.get_dimension (depth % 4) with
    | some tc, some cc => if tc < cc then curNd.left else curNd.right
    | _, _ => none
  | _, _ => none

/-- Re-walk procedure of the spec's insertion-ordering invariant: from
`cur`, repeatedly take `walkStep` (the comparator used at insertion
time) and report whether the walk reaches the target node. -/
def findNode (fuel : Nat) (a : NodeArena T) (cur target depth : Nat) : Bool :=
  match fuel with
  | 0 => false
  | fuel + 1 =>
    if cur = target then true
    else
      match walkStep a cur target depth with
      | some nxt => findNode fuel a nxt target (depth + 1)
      | none => false

/-- Query upper bound for right-subtree pruning, as the spec words it:
on a minimum axis (0 or 1) use the paired maximum `query[dim + 2]`, on a
maximum axis (2 or 3) reuse `query[dim]` itself. -/
def specQueryHigh (query : BoundingBox) (dimension : Nat) : Option Coord :=
  if dimension < 2 then query.get_dimension (dimension + 2)
  else query.get_dimension dimension

/-- Structural invariant of arenas built through the public interface:
every child index is a strictly later, valid arena index. -/
def childrenInv (a : NodeArena T) : Prop :=
  ∀ i nd, a[i]? = some nd →
    (∀ j, nd.left = some j → i < j ∧ j < a.len) ∧
    (∀ j, nd.right = some j → i < j ∧ j < a.len)

/-- Arena extension order: every node keeps its region and payload, and
keeps every child link it already has (new links and new nodes may
appear). -/
def arenaLe (a a' : NodeArena T) : Prop :=
  ∀ (i : Nat) (nd : Node T), a[i]? = some nd → ∃ nd' : Node T, a'[i]? = some nd' ∧
    nd'.point = nd.point ∧ nd'.data = nd.data ∧
    (∀ j, nd.left = some j → nd'.left = some j) ∧
    (∀ j, nd.right = some j → nd'.right = some j)

/-! Concrete data for the scenario claims. -/

/-- Scenario boxes of the spec: Store, House, Park, School with payloads
0, 1, 2, 3 in insertion order. -/
def scenarioBoxes : List (BoundingBox × Nat) :=
  [(⟨5, 5, 7, 7⟩, 0), (⟨2, 2, 3, 3⟩, 1), (⟨8, 1, 10, 2⟩, 2), (⟨1, 8, 2, 9⟩, 3)]

/-- Arena produced by building the scenario boxes (Store at the root,
House left, Park right, School right child of House). -/
def scenArena : NodeArena Nat :=
  [⟨⟨5, 5, 7, 7⟩, 0, some 1, some 2⟩,
   ⟨⟨2, 2, 3, 3⟩, 1, none, some 3⟩,
   ⟨⟨8, 1, 10, 2⟩, 2, none, none⟩,
   ⟨⟨1, 8, 2, 9⟩, 3, none, none⟩]

/-- Insertion sequence producing a node at tree depth 2 (an xmax split)
with a left child whose box is strictly inside every other box. -/
def pruneBoxes : List (BoundingBox × Nat) :=
  [(⟨0, 0, 10, 10⟩, 0), (⟨1, 0, 10, 10⟩, 1), (⟨1, 1, 10, 10⟩, 2), (⟨1, 1, 5, 5⟩, 3)]

/-- Arena produced by building `pruneBoxes`: a right spine 0 → 1 → 2 with
node 3 as the left child of node 2 (which splits on dimension 2, xmax). -/
def pruneArena : NodeArena Nat :=
  [⟨⟨0, 0, 10, 10⟩, 0, none, some 1⟩,
   ⟨⟨1, 0, 10, 10⟩, 1, none, some 2⟩,
   ⟨⟨1, 1, 10, 10⟩, 2, some 3, none⟩,
   ⟨⟨1, 1, 5, 5⟩, 3, none, none⟩]

/-- Query box containing every box of `pruneBoxes`. -/
def hugeQuery : BoundingBox := ⟨-100, -100, 100, 100⟩

/-- Small two-node arena used by concrete witnesses: both nodes are
allocated and unlinked. -/
def cArena : NodeArena Nat :=
  [⟨⟨0, 0, 1, 1⟩, 0, none, none⟩, ⟨⟨2, 2, 3, 3⟩, 1, none, none⟩]

/-! Theorems. -/

/-- Helper: a bounding box has a coordinate at every dimension below 4. -/
theorem get_dimension_isSome (b : BoundingBox) (dim : Nat) (h : dim < 4) :
    ∃ c, b.get_dimension dim = some c := by
  match dim, h with
  | 0, _ => exact ⟨b.xmin, rfl⟩
  | 1, _ => exact ⟨b.ymin, rfl⟩
  | 2, _ => exact ⟨b.xmax, rfl⟩
  | 3, _ => exact ⟨b.ymax, rfl⟩

/-- Helper: coordinates at cycled dimensions always exist. -/
theorem get_dimension_mod_isSome (b : BoundingBox) (d : Nat) :
    ∃ c, b.get_dimension (d % 4) = some c :=
  get_dimension_isSome b (d % 4) (Nat.mod_lt _ (by norm_num))

/-- Helper: one successful step of the recursive search splits the
result into the self part and the two (possibly pruned) child parts. -/
theorem search_succ_shape {T : Type} (f : Nat) (a : NodeArena T) (node : Nat)
    (query : BoundingBox) (d : Nat) (nd : Node T) (res : List Nat)
    (hnode : a[node]? = some nd)
    (h : spatial_search_recursive (f + 1) a node query d = some res) :
    ∃ leftList rightList,
      res = (if nd.point.is_within query || nd.point.overlaps query
              then [node] else []) ++ leftList ++ rightList ∧
      (leftList = [] ∨ ∃ l, nd.left = some l ∧
        spatial_search_recursive f a l query (d + 1) = some leftList) ∧
      (rightList = [] ∨ ∃ r, nd.right = some r ∧
        spatial_search_recursive f a r query (d + 1) = some rightList) := by
  obtain ⟨split_v, hs⟩ := get_dimension_mod_isSome nd.point d
  obtain ⟨qmin, hq⟩ := get_dimension_mod_isSome query d
  obtain ⟨qmax, hm⟩ : ∃ qmax, (if d % 4 < 2
      then query.get_dimension (d % 4 + 2) else some qmin) = some qmax := by
    by_cases h2 : d % 4 < 2
    · obtain ⟨c, hc⟩ := get_dimension_isSome query (d % 4 + 2) (by omega)
      exact ⟨c, by rw [if_pos h2, hc]⟩
    · exact ⟨qmin, by rw [if_neg h2]⟩
  simp only [spatial_search_recursive, BoundingBox.dimensions, hnode, hs, hq, hm] at h
  split at h
  · cases h
  next leftList hleft =>
    split at h
    · cases h
    next rightList hright =>
      injection h with h
      refine ⟨leftList, rightList, h.symm, ?_, ?_⟩
      · cases hl : nd.left with
        | none =>
          rw [hl] at hleft
          exact Or.inl (Option.some.inj hleft).symm
        | some l =>
          simp only [hl] at hleft
          by_cases hc : qmin ≤ split_v
          · rw [if_pos hc] at hleft
            exact Or.inr ⟨l, rfl, hleft⟩
          · rw [if_neg hc] at hleft
            exact Or.inl (Option.some.inj hleft).symm
      · cases hr : nd.right with
        | none =>
          rw [hr] at hright
          exact Or.inl (Option.some.inj hright).symm
        | some rc =>
          simp only [hr] at hright
          by_cases hc : qmax ≥ split_v
          · rw [if_pos hc] at hright
            exact Or.inr ⟨rc, rfl, hright⟩
          · rw [if_neg hc] at hright
            exact Or.inl (Option.some.inj hright).symm

/-- Helper: every reference returned by the recursive search names a
valid node whose region is within or overlaps the query. -/
theorem search_mem_sound {T : Type} :
    ∀ (fuel : Nat) (a : NodeArena T) (node : Nat) (query : BoundingBox) (d : Nat)
      (res : List Nat), spatial_search_recursive fuel a node query d = some res →
      ∀ x ∈ res, ∃ ndx : Node T, a[x]? = some ndx ∧
        (ndx.point.is_within query || ndx.point.overlaps query) = true := by
  intro fuel
  induction fuel with
  | zero =>
    intro a node query d res h
    simp [spatial_search_recursive] at h
  | succ f ih =>
    intro a node query d res h x hx
    cases hnode : a[node]? with
    | none =>
      rw [spatial_search_recursive, hnode] at h
      cases h
    | some nd =>
      obtain ⟨leftList, rightList, hres, hL, hR⟩ :=
        search_succ_shape f a node query d nd res hnode h
      subst hres
      rcases List.mem_append.1 hx with hx12 | hxr
      · rcases List.mem_append.1 hx12 with hxs | hxl
        · by_cases hpred : (nd.point.is_within query || nd.point.overlaps query) = true
          · rw [if_pos hpred] at hxs
            rw [List.mem_singleton.1 hxs]
            exact ⟨nd, hnode, hpred⟩
          · rw [if_neg hpred] at hxs
            exact absurd hxs (List.not_mem_nil x)
        · rcases hL with rfl | ⟨l, hl, hrec⟩
          · exact absurd hxl (List.not_mem_nil x)
          · exact ih a l query (d + 1) leftList hrec x hxl
      · rcases hR with rfl | ⟨rc, hr, hrec⟩
        · exact absurd hxr (List.not_mem_nil x)
        · exact ih a rc query (d + 1) rightList hrec x hxr

/-- C4: a visited node is included in the search result iff
`is_within(query) OR overlaps(query)` holds of its region, where the two
predicates are exactly the per-dimension comparisons of the 4D bounding
box (the disjunction is what the code tests, not `overlaps` alone). -/
theorem C4_inclusion_predicate {T : Type} (fuel : Nat) (a : NodeArena T)
    (node : Nat) (query : BoundingBox) (d : Nat) (nd : Node T) (res : List Nat)
    (h : a[node]? = some nd)
    (hres : spatial_search_recursive fuel a node query d = some res) :
    (node ∈ res ↔ (nd.point.is_within query || nd.point.overlaps query) = true) ∧
    (nd.point.is_within query = true ↔
      (nd.point.xmin ≥ query.xmin ∧ nd.point.xmax ≤ query.xmax ∧
        nd.point.ymin ≥ query.ymin ∧ nd.point.ymax ≤ query.ymax)) ∧
    (nd.point.overlaps query = true ↔
      ¬(nd.point.xmax < query.xmin ∨ nd.point.xmin > query.xmax ∨
        nd.point.ymax < query.ymin ∨ nd.point.ymin > query.ymax)) := by
  refine ⟨⟨?_, ?_⟩, ?_, ?_⟩
  · intro hmem
    obtain ⟨ndx, hndx, hpred⟩ :=
      search_mem_sound fuel a node query d res hres node hmem
    rw [h] at hndx
    rw [Option.some.inj hndx]
    exact hpred
  · intro hpred
    cases fuel with
    | zero => simp [spatial_search_recursive] at hres
    | succ f =>
      obtain ⟨leftList, rightList, hshape, -, -⟩ :=
        search_succ_shape f a node query d nd res h hres
      subst hshape
      rw [if_pos hpred]
      simp
  · simp only [BoundingBox.is_within, Bool.and_eq_true, decide_eq_true_eq]
    tauto
  · simp only [BoundingBox.overlaps, Bool.not_eq_true', Bool.or_eq_false_iff,
      decide_eq_false_iff_not, not_lt, gt_iff_lt]
    constructor
    · rintro ⟨⟨⟨h1, h2⟩, h3⟩, h4⟩
      push_neg
      exact ⟨by linarith, by linarith, by linarith, by linarith⟩
    · intro hnot
      push_neg at hnot
      obtain ⟨h1, h2, h3, h4⟩ := hnot
      exact ⟨⟨⟨by linarith, by linarith⟩, by linarith⟩, by linarith⟩

/-- Witness for C4 on the scenario arena at the root node with query
(0,0,6,6): the root is in the result, so its disjunction holds. -/
theorem C4_witness :
    ((Node.mk ⟨5, 5, 7, 7⟩ 0 (some 1) (some 2) : Node Nat).point.is_within
        ⟨0, 0, 6, 6⟩
      || (Node.mk ⟨5, 5, 7, 7⟩ 0 (some 1) (some 2) : Node Nat).point.overlaps
        ⟨0, 0, 6, 6⟩) = true :=
  ((C4_inclusion_predicate 5 scenArena 0 ⟨0, 0, 6, 6⟩ 0
      ⟨⟨5, 5, 7, 7⟩, 0, some 1, some 2⟩ [0, 1]
      (by decide) (by decide)).1).mp (by decide)

/-- C10: `get_dimension` on a bounding box totally returns the
coordinate mapped `0 ↦ xmin`, `1 ↦ ymin`, `2 ↦ xmax`, `3 ↦ ymax` for every
dimension below 4, and for every dimension `≥ 4` it takes the fatal abort
branch (modelled as `none`), so under the precondition `dim < 4` the
error branch is unreachable. -/
theorem C10_get_dimension_total (b : BoundingBox) (dim : Nat) :
    b.get_dimension 0 = some b.xmin ∧ b.get_dimension 1 = some b.ymin ∧
    b.get_dimension 2 = some b.xmax ∧ b.get_dimension 3 = some b.ymax ∧
    (dim < 4 → (b.get_dimension dim).isSome = true) ∧
    (4 ≤ dim → b.get_dimension dim = none) := by
  refine ⟨rfl, rfl, rfl, rfl, ?_, ?_⟩
  · intro h
    match dim, h with
    | 0, _ => rfl
    | 1, _ => rfl
    | 2, _ => rfl
    | 3, _ => rfl
  · intro h
    match dim, h with
    | n + 4, _ => rfl

/-- Witness for C10 at the box (1,2,3,4), dimensions 2 and 5. -/
theorem C10_witness :
    (BoundingBox.mk 1 2 3 4).get_dimension 2 = some 3 ∧
    (BoundingBox.mk 1 2 3 4).get_dimension 5 = none :=
  ⟨(C10_get_dimension_total ⟨1, 2, 3, 4⟩ 2).2.2.1,
   (C10_get_dimension_total ⟨1, 2, 3, 4⟩ 5).2.2.2.2.2 (by decide)⟩

/-- C9: for a well-formed node box (xmin ≤ xmax and ymin ≤ ymax),
`is_within` implies `overlaps`, and consequently the search-inclusion
disjunction `is_within || overlaps` equals `overlaps` alone. -/
theorem C9_within_implies_overlaps (node query : BoundingBox)
    (hx : node.xmin ≤ node.xmax) (hy : node.ymin ≤ node.ymax) :
    (node.is_within query = true → node.overlaps query = true) ∧
    (node.is_within query || node.overlaps query) = node.overlaps query := by
  have himp : node.is_within query = true → node.overlaps query = true := by
    intro h
    simp only [BoundingBox.is_within, Bool.and_eq_true, decide_eq_true_eq, ge_iff_le] at h
    obtain ⟨⟨⟨h1, h2⟩, h3⟩, h4⟩ := h
    simp only [BoundingBox.overlaps, Bool.or_eq_true, decide_eq_true_eq,
      Bool.not_eq_true', Bool.or_eq_false_iff, decide_eq_false_iff_not, not_lt, gt_iff_lt]
    exact ⟨⟨⟨by linarith, by linarith⟩, by linarith⟩, by linarith⟩
  refine ⟨himp, ?_⟩
  cases hw : node.is_within query with
  | false => simp
  | true => simp [himp hw]

/-- Witness for C9 at node (0,0,1,1), query (0,0,2,2). -/
theorem C9_witness :
    ((BoundingBox.mk 0 0 1 1).is_within ⟨0, 0, 2, 2⟩ = true →
      (BoundingBox.mk 0 0 1 1).overlaps ⟨0, 0, 2, 2⟩ = true) ∧
    ((BoundingBox.mk 0 0 1 1).is_within ⟨0, 0, 2, 2⟩
      || (BoundingBox.mk 0 0 1 1).overlaps ⟨0, 0, 2, 2⟩)
      = (BoundingBox.mk 0 0 1 1).overlaps ⟨0, 0, 2, 2⟩ :=
  C9_within_implies_overlaps ⟨0, 0, 1, 1⟩ ⟨0, 0, 2, 2⟩ (by decide) (by decide)

/-- C2: building the scenario (Store, House, Park, School, payloads
0..3, Store at the root) and searching with query (0,0,6,6) yields a
result containing House (1) and neither Park (2) nor School (3); query
(7,0,12,5) yields a result containing Park (2) and neither House (1) nor
School (3). -/
theorem C2_scenario :
    buildTree scenarioBoxes = some (scenArena, some 0) ∧
    spatial_search scenArena.len scenArena (some 0) ⟨0, 0, 6, 6⟩ 0 = some [0, 1] ∧
    (1 ∈ ([0, 1] : List Nat) ∧ 2 ∉ ([0, 1] : List Nat) ∧ 3 ∉ ([0, 1] : List Nat)) ∧
    spatial_search scenArena.len scenArena (some 0) ⟨7, 0, 12, 5⟩ 0 = some [0, 2] ∧
    (2 ∈ ([0, 2] : List Nat) ∧ 1 ∉ ([0, 2] : List Nat) ∧ 3 ∉ ([0, 2] : List Nat)) := by
  decide

/-- C1 fails on the code: building `pruneBoxes` yields four nodes, every
node's region lies within `hugeQuery`, yet the universal-query search
returns only `[0, 1, 2]`, omitting node 3 — the left subtree of the
depth-2 node (split dimension 2, xmax) is pruned because the code
compares `query.xmax ≤ split_value` there. -/
theorem C1_universal_query_misses_node :
    buildTree pruneBoxes = some (pruneArena, some 0) ∧
    pruneArena.len = 4 ∧
    (∀ i, i < 4 →
      (pruneArena[i]?.map fun nd => nd.point.is_within hugeQuery) = some true) ∧
    spatial_search pruneArena.len pruneArena (some 0) hugeQuery 0 = some [0, 1, 2] ∧
    3 ∉ ([0, 1, 2] : List Nat) := by
  decide

/-- C5: one step of `insert_node` on a non-empty root compares the new
node's coordinate against the current node's coordinate along
`depth mod dimensions`; strictly less descends left (linking when no
left child exists, recursing at depth+1 otherwise) and all other cases
(ties included) descend right symmetrically. -/
theorem C5_insert_descent {T : Type} (fuel : Nat) (a : NodeArena T)
    (cur n d : Nat) (curNd newNd : Node T) (nc cc : Coord)
    (hc : a[cur]? = some curNd) (hn : a[n]? = some newNd)
    (hnc : newNd.point.get_dimension (d % newNd.point.dimensions) = some nc)
    (hcc : curNd.point.get_dimension (d % newNd.point.dimensions) = some cc) :
    insert_node (fuel + 1) a (some cur) n d =
      if nc < cc then
        match curNd.left with
        | some left_child =>
          (insert_node fuel a (some left_child) n (d + 1)).map fun p => (p.1, cur)
        | none => some (link_left a cur n, cur)
      else
        match curNd.right with
        | some right_child =>
          (insert_node fuel a (some right_child) n (d + 1)).map fun p => (p.1, cur)
        | none => some (link_right a cur n, cur) := by
  simp only [insert_node, hc, hn, hnc, hcc]
  split
  · cases hl : curNd.left with
    | some left_child =>
      cases hrec : insert_node fuel a (some left_child) n (d + 1) <;>
        simp [hrec, Option.map]
    | none => rfl
  · cases hr : curNd.right with
    | some right_child =>
      cases hrec : insert_node fuel a (some right_child) n (d + 1) <;>
        simp [hrec, Option.map]
    | none => rfl

/-- Witness for C5: inserting node 1 under root 0 of `cArena` at depth 0
takes the right branch and links node 1 as the right child. -/
theorem C5_witness :
    insert_node 1 cArena (some 0) 1 0 = some (link_right cArena 0 1, 0) := by
  have h := C5_insert_descent (T := Nat) 0 cArena 0 1 0
      ⟨⟨0, 0, 1, 1⟩, 0, none, none⟩ ⟨⟨2, 2, 3, 3⟩, 1, none, none⟩ 2 0
      (by decide) (by decide) (by decide) (by decide)
  exact h.trans (by decide)

/-- C6: `insert_node` with a `none` root returns the new node as root;
with a `Some r` root every successful call returns `r` itself, no matter
where the new node was linked. -/
theorem C6_insert_returns_root {T : Type} (fuel : Nat) (a a' : NodeArena T)
    (r n d ret : Nat) :
    insert_node (fuel + 1) a none n d = some (a, n) ∧
    (insert_node fuel a (some r) n d = some (a', ret) → ret = r) := by
  refine ⟨rfl, ?_⟩
  intro h
  cases fuel with
  | zero => simp [insert_node] at h
  | succ f =>
    simp only [insert_node] at h
    repeat' split at h
    all_goals simp_all

/-- Witness for C6 on `cArena`: the empty-root call returns node 1, and
the successful rooted call with fuel 1 returns root 0. -/
theorem C6_witness :
    insert_node 2 cArena none 1 0 = some (cArena, 1) ∧ (0 : Nat) = 0 :=
  ⟨(C6_insert_returns_root 1 cArena (link_right cArena 0 1) 0 1 0 0).1,
   (C6_insert_returns_root 1 cArena (link_right cArena 0 1) 0 1 0 0).2 (by decide)⟩

/-- C3: one step of the recursive search at depth `d` descends into the
left child iff it exists and `query[dim] ≤ splitValue`, and into the
right child iff it exists and `queryHigh ≥ splitValue`, where
`dim = d mod query.dimensions`, `splitValue = node.region[dim]`, and
`queryHigh` follows the paired-axis rule of `specQueryHigh`
(`query[dim + 2]` on axes 0 and 1, `query[dim]` on axes 2 and 3). -/
theorem C3_pruning_rule {T : Type} (fuel : Nat) (a : NodeArena T) (node : Nat)
    (query : BoundingBox) (d : Nat) (nd : Node T) (split qlow qhigh : Coord)
    (h : a[node]? = some nd)
    (hs : nd.point.get_dimension (d % query.dimensions) = some split)
    (hl : query.get_dimension (d % query.dimensions) = some qlow)
    (hh : specQueryHigh query (d % query.dimensions) = some qhigh) :
    spatial_search_recursive (fuel + 1) a node query d =
      match
        (match nd.left with
         | some left_child =>
           if qlow ≤ split then
             spatial_search_recursive fuel a left_child query (d + 1)
           else some []
         | none => some []) with
      | none => none
      | some leftList =>
        match
          (match nd.right with
           | some right_child =>
             if qhigh ≥ split then
               spatial_search_recursive fuel a right_child query (d + 1)
             else some []
           | none => some []) with
        | none => none
        | some rightList =>
          some ((if nd.point.is_within query || nd.point.overlaps query
                  then [node] else []) ++ leftList ++ rightList) := by
  have hmax : (if d % query.dimensions < 2
      then query.get_dimension (d % query.dimensions + 2)
      else some qlow) = some qhigh := by
    by_cases hd : d % query.dimensions < 2
    · unfold specQueryHigh at hh
      rw [if_pos hd] at hh
      rw [if_pos hd, hh]
    · unfold specQueryHigh at hh
      rw [if_neg hd] at hh
      rw [hl] at hh
      rw [if_neg hd, hh]
  simp only [spatial_search_recursive, h, hs, hl, hmax]

/-- Helper: a valid arena reference is an in-range index. -/
theorem arena_ref_lt {T : Type} {a : NodeArena T} {i : Nat} {nd : Node T}
    (h : a[i]? = some nd) : i < a.len := by
  obtain ⟨h1, -⟩ := List.getElem?_eq_some_iff.1 h
  exact h1

/-- Helper: linking a left child preserves arena size. -/
theorem link_left_len {T : Type} (a : NodeArena T) (p c : Nat) :
    (link_left a p c).len = a.len := by
  unfold link_left
  cases h : a[p]? with
  | none => rfl
  | some nd => simp [NodeArena.len]

/-- Helper: linking a right child preserves arena size. -/
theorem link_right_len {T : Type} (a : NodeArena T) (p c : Nat) :
    (link_right a p c).len = a.len := by
  unfold link_right
  cases h : a[p]? with
  | none => rfl
  | some nd => simp [NodeArena.len]

/-- Helper: reading the linked parent back after `link_left`. -/
theorem link_left_get_self {T : Type} {a : NodeArena T} {p : Nat} {nd : Node T}
    (c : Nat) (h : a[p]? = some nd) :
    (link_left a p c)[p]? = some { nd with left := some c } := by
  unfold link_left
  rw [h]
  exact List.getElem?_set_self (arena_ref_lt h)

/-- Helper: reading the linked parent back after `link_right`. -/
theorem link_right_get_self {T : Type} {a : NodeArena T} {p : Nat} {nd : Node T}
    (c : Nat) (h : a[p]? = some nd) :
    (link_right a p c)[p]? = some { nd with right := some c } := by
  unfold link_right
  rw [h]
  exact List.getElem?_set_self (arena_ref_lt h)

/-- Helper: `link_left` leaves every other node untouched. -/
theorem link_left_get_ne {T : Type} (a : NodeArena T) (p c i : Nat) (h : i ≠ p) :
    (link_left a p c)[i]? = a[i]? := by
  unfold link_left
  cases hp : a[p]? with
  | none => rfl
  | some nd => exact List.getElem?_set_ne (Ne.symm h)

/-- Helper: `link_right` leaves every other node untouched. -/
theorem link_right_get_ne {T : Type} (a : NodeArena T) (p c i : Nat) (h : i ≠ p) :
    (link_right a p c)[i]? = a[i]? := by
  unfold link_right
  cases hp : a[p]? with
  | none => rfl
  | some nd => exact List.getElem?_set_ne (Ne.symm h)

/-- Helper: a successful insertion never changes the arena size nor any
node's region or payload — only child links. -/
theorem insert_preserves_nodes {T : Type} :
    ∀ (fuel : Nat) (a : NodeArena T) (root : Option Nat) (n d : Nat)
      (a' : NodeArena T) (r : Nat),
      insert_node fuel a root n d = some (a', r) →
      a'.len = a.len ∧
      (∀ i : Nat, a'[i]?.map Node.point = a[i]?.map Node.point) ∧
      (∀ i : Nat, a'[i]?.map Node.data = a[i]?.map Node.data) := by
  intro fuel
  induction fuel with
  | zero =>
    intro a root n d a' r h
    simp [insert_node] at h
  | succ f ih =>
    intro a root n d a' r h
    cases root with
    | none =>
      simp only [insert_node] at h
      have h' := Option.some.inj h
      rw [Prod.mk.injEq] at h'
      obtain ⟨rfl, rfl⟩ := h'
      exact ⟨rfl, fun i => rfl, fun i => rfl⟩
    | some cur =>
      simp only [insert_node] at h
      cases hcur : a[cur]? with
      | none => simp [hcur] at h
      | some curNd =>
      cases hn : a[n]? with
      | none => simp [hcur, hn] at h
      | some newNd =>
      simp only [hcur, hn, BoundingBox.dimensions] at h
      obtain ⟨nc, hnc⟩ := get_dimension_mod_isSome newNd.point d
      obtain ⟨cc, hcc⟩ := get_dimension_mod_isSome curNd.point d
      simp only [hnc, hcc] at h
      split at h
      · cases hl : curNd.left with
        | some lc =>
          simp only [hl] at h
          cases hrec : insert_node f a (some lc) n (d + 1) with
          | none => simp [hrec] at h
          | some p =>
            obtain ⟨a2, r2⟩ := p
            simp only [hrec] at h
            have h' := Option.some.inj h
            rw [Prod.mk.injEq] at h'
            obtain ⟨rfl, rfl⟩ := h'
            exact ih a (some lc) n (d + 1) a2 r2 hrec
        | none =>
          simp only [hl] at h
          have h' := Option.some.inj h
          rw [Prod.mk.injEq] at h'
          obtain ⟨rfl, rfl⟩ := h'
          refine ⟨link_left_len a cur n, ?_, ?_⟩
          · intro i
            by_cases hi : i = cur
            · subst hi
              rw [link_left_get_self n hcur, hcur]
              rfl
            · rw [link_left_get_ne a cur n i hi]
          · intro i
            by_cases hi : i = cur
            · subst hi
              rw [link_left_get_self n hcur, hcur]
              rfl
            · rw [link_left_get_ne a cur n i hi]
      · cases hr : curNd.right with
        | some rc =>
          simp only [hr] at h
          cases hrec : insert_node f a (some rc) n (d + 1) with
          | none => simp [hrec] at h
          | some p =>
            obtain ⟨a2, r2⟩ := p
            simp only [hrec] at h
            have h' := Option.some.inj h
            rw [Prod.mk.injEq] at h'
            obtain ⟨rfl, rfl⟩ := h'
            exact ih a (some rc) n (d + 1) a2 r2 hrec
        | none =>
          simp only [hr] at h
          have h' := Option.some.inj h
          rw [Prod.mk.injEq] at h'
          obtain ⟨rfl, rfl⟩ := h'
          refine ⟨link_right_len a cur n, ?_, ?_⟩
          · intro i
            by_cases hi : i = cur
            · subst hi
              rw [link_right_get_self n hcur, hcur]
              rfl
            · rw [link_right_get_ne a cur n i hi]
          · intro i
            by_cases hi : i = cur
            · subst hi
              rw [link_right_get_self n hcur, hcur]
              rfl
            · rw [link_right_get_ne a cur n i hi]

/-- Helper: a failed build step poisons the rest of the fold. -/
theorem buildSteps_none {T : Type} :
    ∀ (l : List (BoundingBox × T)), List.foldl buildStep none l = none := by
  intro l
  induction l with
  | nil => rfl
  | cons x rest ih => exact ih

/-- Helper: a successful build yields one node per input item, in
allocation order, with exactly the given regions and payloads. -/
theorem build_foldl_points {T : Type} :
    ∀ (l : List (BoundingBox × T)) (a0 : NodeArena T) (r0 : Option Nat)
      (a : NodeArena T) (root : Option Nat),
      List.foldl buildStep (some (a0, r0)) l = some (a, root) →
      a.len = a0.len + l.length ∧
      (∀ i, i < a0.len →
        a[i]?.map Node.point = a0[i]?.map Node.point ∧
        a[i]?.map Node.data = a0[i]?.map Node.data) ∧
      (∀ k (hk : k < l.length),
        a[a0.len + k]?.map Node.point = some ((l[k]).1) ∧
        a[a0.len + k]?.map Node.data = some ((l[k]).2)) := by
  intro l
  induction l with
  | nil =>
    intro a0 r0 a root h
    simp only [List.foldl] at h
    have h' := Option.some.inj h
    rw [Prod.mk.injEq] at h'
    obtain ⟨rfl, rfl⟩ := h'
    exact ⟨by simp, fun i hi => ⟨rfl, rfl⟩, fun k hk => absurd hk (by simp)⟩
  | cons bt rest ih =>
    intro a0 r0 a root h
    rw [List.foldl_cons] at h
    have hbs : buildStep (some (a0, r0)) bt =
        match insert_node (a0 ++ [(⟨bt.1, bt.2, none, none⟩ : Node T)]).len
            (a0 ++ [(⟨bt.1, bt.2, none, none⟩ : Node T)]) r0 a0.length 0 with
        | some (a1, newRoot) => some (a1, some newRoot)
        | none => none := rfl
    cases hins : insert_node (a0 ++ [(⟨bt.1, bt.2, none, none⟩ : Node T)]).len
        (a0 ++ [(⟨bt.1, bt.2, none, none⟩ : Node T)]) r0 a0.length 0 with
    | none =>
      rw [hbs] at h
      simp only [hins] at h
      rw [buildSteps_none] at h
      cases h
    | some p =>
      obtain ⟨a1, r1⟩ := p
      rw [hbs] at h
      simp only [hins] at h
      obtain ⟨hlen1, hpt1, hdt1⟩ :=
        insert_preserves_nodes _ _ _ _ _ _ _ hins
      obtain ⟨hlen, hold, hnew⟩ := ih a1 (some r1) a root h
      have hfr : (a0 ++ [(⟨bt.1, bt.2, none, none⟩ : Node T)]).len = a0.len + 1 := by
        simp [NodeArena.len]
      refine ⟨?_, ?_, ?_⟩
      · simp only [List.length_cons]
        omega
      · intro i hi
        have hi1 : i < a1.len := by omega
        obtain ⟨hp, hd⟩ := hold i hi1
        have happ : (a0 ++ [(⟨bt.1, bt.2, none, none⟩ : Node T)])[i]? = a0[i]? :=
          List.getElem?_append_left hi
        constructor
        · rw [hp, hpt1 i, happ]
        · rw [hd, hdt1 i, happ]
      · intro k hk
        cases k with
        | zero =>
          have hi1 : a0.len < a1.len := by omega
          obtain ⟨hp, hd⟩ := hold a0.len hi1
          have happ : (a0 ++ [(⟨bt.1, bt.2, none, none⟩ : Node T)])[a0.len]? =
              some ⟨bt.1, bt.2, none, none⟩ :=
            List.getElem?_concat_length a0 _
          constructor
          · rw [Nat.add_zero, hp, hpt1 a0.len, happ]
            rfl
          · rw [Nat.add_zero, hd, hdt1 a0.len, happ]
            rfl
        | succ k' =>
          have hk' : k' < rest.length := by
            simp only [List.length_cons] at hk
            omega
          have he : a0.len + (k' + 1) = a1.len + k' := by omega
          obtain ⟨hp, hd⟩ := hnew k' hk'
          rw [he]
          exact ⟨hp, hd⟩

/-- Helper: definitional unfolding of one walk step. -/
theorem findNode_succ {T : Type} (fuel : Nat) (a : NodeArena T) (c x d : Nat) :
    findNode (fuel + 1) a c x d =
      if c = x then true
      else
        match walkStep a c x d with
        | some nxt => findNode fuel a nxt x (d + 1)
        | none => false := rfl

/-- Helper: the walk finds its target immediately. -/
theorem findNode_self {T : Type} (fuel : Nat) (a : NodeArena T) (x d : Nat) :
    findNode (fuel + 1) a x x d = true := by
  rw [findNode_succ, if_pos rfl]

/-- Helper: success of the walk is monotone in fuel. -/
theorem findNode_mono_fuel {T : Type} :
    ∀ (f f' : Nat) (a : NodeArena T) (c x d : Nat), f ≤ f' →
      findNode f a c x d = true → findNode f' a c x d = true := by
  intro f
  induction f with
  | zero =>
    intro f' a c x d hle h
    simp [findNode] at h
  | succ g ih =>
    intro f' a c x d hle h
    obtain ⟨g', rfl⟩ : ∃ g', f' = g' + 1 := ⟨f' - 1, by omega⟩
    rw [findNode_succ] at h ⊢
    by_cases hcx : c = x
    · rw [if_pos hcx]
    · rw [if_neg hcx] at h ⊢
      cases hstep : walkStep a c x d with
      | none => simp [hstep] at h
      | some nxt =>
        simp only [hstep] at h ⊢
        exact ih g' a nxt x (d + 1) (by omega) h

/-- Helper: `arenaLe` is transitive. -/
theorem arenaLe_trans {T : Type} {a b c : NodeArena T} (h1 : arenaLe a b)
    (h2 : arenaLe b c) : arenaLe a c := by
  intro i nd hnd
  obtain ⟨nd1, h1a, hp1, hd1, hl1, hr1⟩ := h1 i nd hnd
  obtain ⟨nd2, h2a, hp2, hd2, hl2, hr2⟩ := h2 i nd1 h1a
  exact ⟨nd2, h2a, hp2.trans hp1, hd2.trans hd1,
    fun j hj => hl2 j (hl1 j hj), fun j hj => hr2 j (hr1 j hj)⟩

/-- Helper: appending nodes is an arena extension. -/
theorem arenaLe_append {T : Type} (a : NodeArena T) (xs : List (Node T)) :
    arenaLe a (a ++ xs) := by
  intro i nd hnd
  refine ⟨nd, ?_, rfl, rfl, fun j hj => hj, fun j hj => hj⟩
  rw [List.getElem?_append_left (arena_ref_lt hnd)]
  exact hnd

/-- Helper: setting an absent left child is an arena extension. -/
theorem arenaLe_link_left {T : Type} {a : NodeArena T} {p : Nat} {nd : Node T}
    (c : Nat) (h : a[p]? = some nd) (hl : nd.left = none) :
    arenaLe a (link_left a p c) := by
  intro i ndi hndi
  by_cases hip : i = p
  · subst hip
    rw [h] at hndi
    obtain rfl := Option.some.inj hndi
    refine ⟨{ nd with left := some c }, link_left_get_self c h, rfl, rfl,
      ?_, fun j hj => hj⟩
    intro j hj
    rw [hl] at hj
    cases hj
  · refine ⟨ndi, ?_, rfl, rfl, fun j hj => hj, fun j hj => hj⟩
    rw [link_left_get_ne a p c i hip]
    exact hndi

/-- Helper: setting an absent right child is an arena extension. -/
theorem arenaLe_link_right {T : Type} {a : NodeArena T} {p : Nat} {nd : Node T}
    (c : Nat) (h : a[p]? = some nd) (hr : nd.right = none) :
    arenaLe a (link_right a p c) := by
  intro i ndi hndi
  by_cases hip : i = p
  · subst hip
    rw [h] at hndi
    obtain rfl := Option.some.inj hndi
    refine ⟨{ nd with right := some c }, link_right_get_self c h, rfl, rfl,
      fun j hj => hj, ?_⟩
    intro j hj
    rw [hr] at hj
    cases hj
  · refine ⟨ndi, ?_, rfl, rfl, fun j hj => hj, fun j hj => hj⟩
    rw [link_right_get_ne a p c i hip]
    exact hndi

/-- Helper: a walk step survives arena extension. -/
theorem walkStep_mono {T : Type} {a a' : NodeArena T} (hle : arenaLe a a')
    {c x d nxt : Nat} (h : walkStep a c x d = some nxt) :
    walkStep a' c x d = some nxt := by
  unfold walkStep at h ⊢
  cases hc : a[c]? with
  | none => rw [hc] at h; cases h
  | some curNd =>
  cases hx : a[x]? with
  | none => simp [hc, hx] at h
  | some tgtNd =>
  simp only [hc, hx] at h
  obtain ⟨curNd', hc', hp', hd', hl', hr'⟩ := hle c curNd hc
  obtain ⟨tgtNd', hx', hpt', hdt', hlt', hrt'⟩ := hle x tgtNd hx
  simp only [hc', hx', hp', hpt']
  cases htc : tgtNd.point.get_dimension (d % 4) with
  | none => simp [htc] at h
  | some tc =>
  cases hcc : curNd.point.get_dimension (d % 4) with
  | none => simp [htc, hcc] at h
  | some cc =>
  simp only [htc, hcc] at h ⊢
  by_cases hltc : tc < cc
  · rw [if_pos hltc] at h ⊢
    exact hl' nxt h
  · rw [if_neg hltc] at h ⊢
    exact hr' nxt h

/-- Helper: success of the walk survives arena extension. -/
theorem findNode_mono_arena {T : Type} :
    ∀ (fuel : Nat) (a a' : NodeArena T) (c x d : Nat), arenaLe a a' →
      findNode fuel a c x d = true → findNode fuel a' c x d = true := by
  intro fuel
  induction fuel with
  | zero =>
    intro a a' c x d hle h
    simp [findNode] at h
  | succ f ih =>
    intro a a' c x d hle h
    rw [findNode_succ] at h ⊢
    by_cases hcx : c = x
    · rw [if_pos hcx]
    · rw [if_neg hcx] at h ⊢
      cases hstep : walkStep a c x d with
      | none => simp [hstep] at h
      | some nxt =>
        simp only [hstep] at h
        simp only [walkStep_mono hle hstep]
        exact ih a a' nxt x (d + 1) hle h

/-- Helper: inserting a fresh, unreferenced, last-allocated node under a
valid current node returns the current node, extends the arena order,
keeps child indices increasing, and leaves the new node reachable by the
comparator walk from the insertion point. -/
theorem insert_node_spec {T : Type} :
    ∀ (fuel : Nat) (a : NodeArena T) (cur n d : Nat) (a' : NodeArena T) (r : Nat),
      childrenInv a →
      (∀ (i : Nat) (ndi : Node T), a[i]? = some ndi →
        ndi.left ≠ some n ∧ ndi.right ≠ some n) →
      a.len = n + 1 →
      cur ≠ n →
      insert_node fuel a (some cur) n d = some (a', r) →
      r = cur ∧ a'.len = a.len ∧ arenaLe a a' ∧ childrenInv a' ∧
        findNode (fuel + 1) a' cur n d = true := by
  intro fuel
  induction fuel with
  | zero =>
    intro a cur n d a' r _ _ _ _ h
    simp [insert_node] at h
  | succ f ih =>
    intro a cur n d a' r hinv hfresh hlast hcn h
    simp only [insert_node] at h
    cases hcur : a[cur]? with
    | none => simp [hcur] at h
    | some curNd =>
    cases hn : a[n]? with
    | none => simp [hcur, hn] at h
    | some newNd =>
    simp only [hcur, hn, BoundingBox.dimensions] at h
    obtain ⟨nc, hnc⟩ := get_dimension_mod_isSome newNd.point d
    obtain ⟨cc, hcc⟩ := get_dimension_mod_isSome curNd.point d
    simp only [hnc, hcc] at h
    split at h
    · next hlt =>
      cases hl : curNd.left with
      | some lc =>
        simp only [hl] at h
        cases hrec : insert_node f a (some lc) n (d + 1) with
        | none => simp [hrec] at h
        | some p =>
          obtain ⟨a2, r2⟩ := p
          simp only [hrec] at h
          have h' := Option.some.inj h
          rw [Prod.mk.injEq] at h'
          obtain ⟨rfl, rfl⟩ := h'
          have hlc_ne : lc ≠ n := by
            intro e
            subst e
            exact (hfresh cur curNd hcur).1 hl
          obtain ⟨hr2, hlen2, hle2, hinv2, hfind2⟩ :=
            ih a lc n (d + 1) a2 r2 hinv hfresh hlast hlc_ne hrec
          refine ⟨rfl, hlen2, hle2, hinv2, ?_⟩
          rw [findNode_succ, if_neg hcn]
          have hws0 : walkStep a cur n d = some lc := by
            unfold walkStep
            simp only [hcur, hn, hnc, hcc]
            rw [if_pos hlt]
            exact hl
          simp only [walkStep_mono hle2 hws0]
          exact hfind2
      | none =>
        simp only [hl] at h
        have h' := Option.some.inj h
        rw [Prod.mk.injEq] at h'
        obtain ⟨rfl, rfl⟩ := h'
        have hle2 : arenaLe a (link_left a cur n) := arenaLe_link_left n hcur hl
        have hcl := arena_ref_lt hcur
        have hnl := arena_ref_lt hn
        refine ⟨rfl, link_left_len a cur n, hle2, ?_, ?_⟩
        · intro i ndi hndi
          by_cases hip : i = cur
          · subst hip
            rw [link_left_get_self n hcur] at hndi
            obtain rfl := Option.some.inj hndi
            constructor
            · intro j hj
              obtain rfl := Option.some.inj hj
              constructor
              · omega
              · rw [link_left_len]
                exact hnl
            · intro j hj
              have hb := (hinv i curNd hcur).2 j hj
              refine ⟨hb.1, ?_⟩
              rw [link_left_len]
              exact hb.2
          · rw [link_left_get_ne a cur n i hip] at hndi
            have hb := hinv i ndi hndi
            constructor
            · intro j hj
              refine ⟨(hb.1 j hj).1, ?_⟩
              rw [link_left_len]
              exact (hb.1 j hj).2
            · intro j hj
              refine ⟨(hb.2 j hj).1, ?_⟩
              rw [link_left_len]
              exact (hb.2 j hj).2
        · rw [findNode_succ, if_neg hcn]
          have hws : walkStep (link_left a cur n) cur n d = some n := by
            unfold walkStep
            simp only [link_left_get_self n hcur,
              link_left_get_ne a cur n n (Ne.symm hcn), hn, hnc, hcc]
            rw [if_pos hlt]
          simp only [hws]
          exact findNode_self f (link_left a cur n) n (d + 1)
    · next hlt =>
      cases hr : curNd.right with
      | some rc =>
        simp only [hr] at h
        cases hrec : insert_node f a (some rc) n (d + 1) with
        | none => simp [hrec] at h
        | some p =>
          obtain ⟨a2, r2⟩ := p
          simp only [hrec] at h
          have h' := Option.some.inj h
          rw [Prod.mk.injEq] at h'
          obtain ⟨rfl, rfl⟩ := h'
          have hrc_ne : rc ≠ n := by
            intro e
            subst e
            exact (hfresh cur curNd hcur).2 hr
          obtain ⟨hr2, hlen2, hle2, hinv2, hfind2⟩ :=
            ih a rc n (d + 1) a2 r2 hinv hfresh hlast hrc_ne hrec
          refine ⟨rfl, hlen2, hle2, hinv2, ?_⟩
          rw [findNode_succ, if_neg hcn]
          have hws0 : walkStep a cur n d = some rc := by
            unfold walkStep
            simp only [hcur, hn, hnc, hcc]
            rw [if_neg hlt]
            exact hr
          simp only [walkStep_mono hle2 hws0]
          exact hfind2
      | none =>
        simp only [hr] at h
        have h' := Option.some.inj h
        rw [Prod.mk.injEq] at h'
        obtain ⟨rfl, rfl⟩ := h'
        have hle2 : arenaLe a (link_right a cur n) := arenaLe_link_right n hcur hr
        have hcl := arena_ref_lt hcur
        have hnl := arena_ref_lt hn
        refine ⟨rfl, link_right_len a cur n, hle2, ?_, ?_⟩
        · intro i ndi hndi
          by_cases hip : i = cur
          · subst hip
            rw [link_right_get_self n hcur] at hndi
            obtain rfl := Option.some.inj hndi
            constructor
            · intro j hj
              have hb := (hinv i curNd hcur).1 j hj
              refine ⟨hb.1, ?_⟩
              rw [link_right_len]
              exact hb.2
            · intro j hj
              obtain rfl := Option.some.inj hj
              constructor
              · omega
              · rw [link_right_len]
                exact hnl
          · rw [link_right_get_ne a cur n i hip] at hndi
            have hb := hinv i ndi hndi
            constructor
            · intro j hj
              refine ⟨(hb.1 j hj).1, ?_⟩
              rw [link_right_len]
              exact (hb.1 j hj).2
            · intro j hj
              refine ⟨(hb.2 j hj).1, ?_⟩
              rw [link_right_len]
              exact (hb.2 j hj).2
        · rw [findNode_succ, if_neg hcn]
          have hws : walkStep (link_right a cur n) cur n d = some n := by
            unfold walkStep
            simp only [link_right_get_self n hcur,
              link_right_get_ne a cur n n (Ne.symm hcn), hn, hnc, hcc]
            rw [if_neg hlt]
          simp only [hws]
          exact findNode_self f (link_right a cur n) n (d + 1)

/-- Helper: appending a fresh childless node keeps child indices
increasing and in range. -/
theorem childrenInv_snoc {T : Type} {a0 : NodeArena T} (h : childrenInv a0)
    (b : BoundingBox) (t : T) :
    childrenInv (a0 ++ [(⟨b, t, none, none⟩ : Node T)]) := by
  intro i ndi hndi
  have hlen : (a0 ++ [(⟨b, t, none, none⟩ : Node T)]).len = a0.len + 1 := by
    simp [NodeArena.len]
  by_cases hi : i < a0.length
  · rw [List.getElem?_append_left hi] at hndi
    have hb := h i ndi hndi
    constructor
    · intro j hj
      refine ⟨(hb.1 j hj).1, ?_⟩
      have := (hb.1 j hj).2
      simp only [NodeArena.len] at hlen this ⊢
      omega
    · intro j hj
      refine ⟨(hb.2 j hj).1, ?_⟩
      have := (hb.2 j hj).2
      simp only [NodeArena.len] at hlen this ⊢
      omega
  · rw [List.getElem?_append_right (by omega)] at hndi
    cases him : i - a0.length with
    | zero =>
      rw [him] at hndi
      simp only [List.getElem?_cons_zero] at hndi
      obtain rfl := Option.some.inj hndi
      constructor
      · intro j hj
        cases hj
      · intro j hj
        cases hj
    | succ m =>
      rw [him] at hndi
      simp at hndi

/-- Helper: no node of the old arena (nor the fresh node) links to the
freshly appended index. -/
theorem fresh_unreferenced {T : Type} {a0 : NodeArena T} (h : childrenInv a0)
    (b : BoundingBox) (t : T) :
    ∀ (i : Nat) (ndi : Node T),
      (a0 ++ [(⟨b, t, none, none⟩ : Node T)])[i]? = some ndi →
      ndi.left ≠ some a0.length ∧ ndi.right ≠ some a0.length := by
  intro i ndi hndi
  by_cases hi : i < a0.length
  · rw [List.getElem?_append_left hi] at hndi
    have hb := h i ndi hndi
    constructor
    · intro hj
      have := (hb.1 a0.length hj).2
      simp only [NodeArena.len] at this
      omega
    · intro hj
      have := (hb.2 a0.length hj).2
      simp only [NodeArena.len] at this
      omega
  · rw [List.getElem?_append_right (by omega)] at hndi
    cases him : i - a0.length with
    | zero =>
      rw [him] at hndi
      simp only [List.getElem?_cons_zero] at hndi
      obtain rfl := Option.some.inj hndi
      exact ⟨fun hj => Option.noConfusion hj, fun hj => Option.noConfusion hj⟩
    | succ m =>
      rw [him] at hndi
      simp at hndi

/-- Helper: the build fold preserves the walk invariant — increasing
child indices, a valid root, and every allocated node reachable from the
root by the comparator walk. -/
theorem build_inv {T : Type} :
    ∀ (l : List (BoundingBox × T)) (a0 : NodeArena T) (r0 : Option Nat)
      (a : NodeArena T) (root : Option Nat),
      List.foldl buildStep (some (a0, r0)) l = some (a, root) →
      childrenInv a0 →
      (r0 = none → a0 = []) →
      (∀ rr, r0 = some rr → rr < a0.len ∧
        ∀ x, x < a0.len → findNode (a0.len + 1) a0 rr x 0 = true) →
      childrenInv a ∧ (root = none → a = []) ∧
      (∀ rr, root = some rr → rr < a.len ∧
        ∀ x, x < a.len → findNode (a.len + 1) a rr x 0 = true) := by
  intro l
  induction l with
  | nil =>
    intro a0 r0 a root h h1 h2 h3
    simp only [List.foldl] at h
    have h' := Option.some.inj h
    rw [Prod.mk.injEq] at h'
    obtain ⟨rfl, rfl⟩ := h'
    exact ⟨h1, h2, h3⟩
  | cons bt rest ih =>
    intro a0 r0 a root h h1 h2 h3
    rw [List.foldl_cons] at h
    have hbs : buildStep (some (a0, r0)) bt =
        match insert_node (a0 ++ [(⟨bt.1, bt.2, none, none⟩ : Node T)]).len
            (a0 ++ [(⟨bt.1, bt.2, none, none⟩ : Node T)]) r0 a0.length 0 with
        | some (a1, newRoot) => some (a1, some newRoot)
        | none => none := rfl
    cases hins : insert_node (a0 ++ [(⟨bt.1, bt.2, none, none⟩ : Node T)]).len
        (a0 ++ [(⟨bt.1, bt.2, none, none⟩ : Node T)]) r0 a0.length 0 with
    | none =>
      rw [hbs] at h
      simp only [hins] at h
      rw [buildSteps_none] at h
      cases h
    | some p =>
      obtain ⟨a1, r1⟩ := p
      rw [hbs] at h
      simp only [hins] at h
      have hinvA := childrenInv_snoc h1 bt.1 bt.2
      have hlenA : (a0 ++ [(⟨bt.1, bt.2, none, none⟩ : Node T)]).len
          = a0.len + 1 := by
        simp [NodeArena.len]
      cases r0 with
      | none =>
        have ha0 : a0 = [] := h2 rfl
        subst ha0
        have hins0 : some ((([] : NodeArena T) ++
              [(⟨bt.1, bt.2, none, none⟩ : Node T)] : NodeArena T), (0 : Nat))
            = some (a1, r1) := by
          rw [← hins]
          rfl
        have h' := Option.some.inj hins0
        rw [Prod.mk.injEq] at h'
        obtain ⟨h1', h2'⟩ := h'
        refine ih a1 (some r1) a root h ?_ ?_ ?_
        · rw [← h1']
          exact hinvA
        · intro e
          cases e
        · intro rr hrr
          obtain rfl := Option.some.inj hrr
          rw [← h1', ← h2']
          constructor
          · simp [NodeArena.len]
          · intro x hx
            have hx0 : x = 0 := by
              simp only [NodeArena.len] at hx
              simp at hx
              omega
            subst hx0
            exact findNode_mono_fuel 1 _ _ _ _ _ (by simp [NodeArena.len])
              (findNode_self 0 _ 0 0)
      | some rr0 =>
        obtain ⟨hrlt, hall⟩ := h3 rr0 rfl
        have hfreshA := fresh_unreferenced h1 bt.1 bt.2
        have hlastA : (a0 ++ [(⟨bt.1, bt.2, none, none⟩ : Node T)]).len
            = a0.length + 1 := by
          simp [NodeArena.len]
        have hcn : rr0 ≠ a0.length := by
          simp only [NodeArena.len] at hrlt
          omega
        obtain ⟨hr1, hlen1, hle1, hinv1, hfind1⟩ :=
          insert_node_spec _ _ _ _ _ _ _ hinvA hfreshA hlastA hcn hins
        subst hr1
        refine ih a1 (some r1) a root h hinv1 (fun e => by cases e) ?_
        intro rr hrr
        obtain rfl := Option.some.inj hrr
        have hlen1' : a1.len = a0.len + 1 := by rw [hlen1, hlenA]
        constructor
        · omega
        · intro x hx
          by_cases hxo : x < a0.len
          · have hbase := hall x hxo
            have hstep1 := findNode_mono_fuel (a0.len + 1) (a1.len + 1) a0 r1 x 0
              (by omega) hbase
            exact findNode_mono_arena (a1.len + 1) a0 a1 r1 x 0
              (arenaLe_trans (arenaLe_append a0 _) hle1) hstep1
          · have hxeq : x = a0.length := by
              simp only [NodeArena.len] at hxo hlen1' hx
              omega
            subst hxeq
            have : ((a0 ++ [(⟨bt.1, bt.2, none, none⟩ : Node T)]).len + 1)
                = a1.len + 1 := by
              rw [hlen1]
            rw [← this]
            exact hfind1

/-- C7: in every tree built from an empty arena by allocate-then-insert
steps (root threaded through the calls), every allocated node is found
again by re-walking from the root with the insertion comparator
(strictly-less goes left along `depth mod 4`, otherwise right) — the walk
retraces the left/right choices made at insertion time and ends at the
node. -/
theorem C7_insert_path_refound {T : Type} (l : List (BoundingBox × T))
    (a : NodeArena T) (r x : Nat)
    (h : buildTree l = some (a, some r)) (hx : x < a.len) :
    findNode (a.len + 1) a r x 0 = true := by
  obtain ⟨-, -, h3⟩ := build_inv l [] none a (some r) h
    (fun i nd hnd => by simp at hnd)
    (fun _ => rfl)
    (fun rr hrr => by cases hrr)
  exact (h3 r rfl).2 x hx

/-- Witness for C7: in the built scenario arena, School (node 3) is
re-found by walking from the root. -/
theorem C7_witness : findNode 5 scenArena 0 3 0 = true :=
  C7_insert_path_refound scenarioBoxes scenArena 0 3 (by decide) (by decide)

/-- C8: building a tree from a list of (region, payload) items produces
one node per item whose `get_point`/`get_data` are exactly the allocated
region and payload, and every (successful) `insert_node` call preserves
arena size and every node's region and payload — only child links
change. -/
theorem C8_roundtrip {T : Type} (l : List (BoundingBox × T)) (a : NodeArena T)
    (root : Option Nat) (h : buildTree l = some (a, root)) :
    (a.len = l.length ∧
      ∀ i (hi : i < l.length),
        a[i]?.map Node.point = some ((l[i]).1) ∧
        a[i]?.map Node.data = some ((l[i]).2)) ∧
    (∀ (fuel : Nat) (b b' : NodeArena T) (rt : Option Nat) (n d rr : Nat),
      insert_node fuel b rt n d = some (b', rr) →
      b'.len = b.len ∧
      (∀ j : Nat, b'[j]?.map Node.point = b[j]?.map Node.point) ∧
      (∀ j : Nat, b'[j]?.map Node.data = b[j]?.map Node.data)) := by
  constructor
  · obtain ⟨hlen, hold, hnew⟩ := build_foldl_points l [] none a root h
    constructor
    · simpa [NodeArena.len] using hlen
    · intro i hi
      have hres := hnew i (by simpa using hi)
      simpa [NodeArena.len] using hres
  · intro fuel b b' rt n d rr hins
    exact insert_preserves_nodes fuel b rt n d b' rr hins

/-- Witness for C8: in the built scenario arena, node 1 still carries
House's region (2,2,3,3). -/
theorem C8_witness :
    scenArena[1]?.map Node.point = some ⟨2, 2, 3, 3⟩ :=
  ((C8_roundtrip scenarioBoxes scenArena (some 0) (by decide)).1.2 1 (by decide)).1

/-- Witness for C3 on the scenario arena: searching from the root with
query (0,0,6,6) descends both sides and returns [0, 1]. -/
theorem C3_witness :
    spatial_search_recursive 5 scenArena 0 ⟨0, 0, 6, 6⟩ 0 = some [0, 1] := by
  have h := C3_pruning_rule (T := Nat) 4 scenArena 0 ⟨0, 0, 6, 6⟩ 0
      ⟨⟨5, 5, 7, 7⟩, 0, some 1, some 2⟩ 5 0 6
      (by decide) (by decide) (by decide) (by decide)
  exact h.trans (by decide)

end Bkd
